import Mathlib

/-!
Verification of the ifmgrd per-interface state machine and its coordination
layer, shallowly embedded from the Go sources (intf_state_machine.go, the
interface manager, the session registry and the dispatcher).

The per-interface machine processes one event at a time from a FIFO queue.
Configuration trees are compared by pointer identity only, so a tree pointer
is modelled as an identity tag (a natural number), with the nil pointer as
none.  Commit work started by a transition runs in a background driver task
that (1) runs the commit, (2) stores the candidate snapshot (or nil for an
unapply) into the running pointer, and (3) enqueues a Done event into the
same FIFO.  A step of the machine on a Done event therefore first performs
the driver's running-store for the oldest in-flight job and then runs the
Done transition.  Because no transition other than Done reads the running
pointer while a commit is in flight, folding the driver's store into the
Done step is observationally faithful to the Go code.
-/

namespace Ifmgrd

/-- A configuration tree pointer (Go: a possibly nil *data.Node).  Pointer
identity is modelled by a numeric id; none is the nil pointer. -/
abbrev Cfg := Option Nat

/-- An in-flight commit job as submitted by applyconfig/unapplyconfig in
intf_state_machine.go: the first component is the candidate snapshot the
commit driver stores into running when it finishes (nil for an unapply); the
second is the running snapshot handed to the commit. -/
abbrev CommitJob := Cfg × Cfg

/-- States of the interface machine (intf_state_machine.go, type State). -/
inductive State where
  | unplugged
  | plugged
  | applying
  | unapplying
  | shuttingdown
  | shutdown
deriving DecidableEq, Repr

/-- Message types of the interface machine (intf_state_machine.go, type
messageType).  unapply and isShutdown exist in the source but have no entry
in the transition table. -/
inductive messageType where
  | apply
  | unapply
  | reset
  | plug
  | unplug
  | isShutdown
  | kill
  | done
deriving DecidableEq, Repr

/-- A message on the machine's queue (intf_state_machine.go, type message).
The data field is the configuration-tree pointer carried by Apply/Reset and
nil for every other message. -/
structure message where
  typ : messageType
  data : Cfg
deriving DecidableEq, Repr

/-- The interface machine (intf_state_machine.go, type IntfMachine), plus
the list of in-flight commit-driver tasks (pending) whose Done event has not
yet been processed; each list entry is the job the driver was given. -/
structure IntfMachine where
  curState : State
  candidate : Cfg
  running : Cfg
  plugged : Bool
  killReq : Bool
  pending : List CommitJob
deriving DecidableEq, Repr

namespace IntfMachine

/-- applyconfig: swap the candidate, then start commit actions on a driver
task carrying the (candidate, running) snapshots; the driver will store the
candidate snapshot into running and enqueue Done.  Returns applying. -/
def applyconfig (m : IntfMachine) (candidate : Cfg) : IntfMachine :=
  { m with candidate := candidate,
           pending := m.pending ++ [(candidate, m.running)],
           curState := State.applying }

/-- unapplyconfig: start commit actions on a driver task clearing any
running configuration (commit of nil against the running snapshot); the
driver will store nil into running and enqueue Done.  Returns newState. -/
def unapplyconfig (m : IntfMachine) (newState : State) : IntfMachine :=
  { m with pending := m.pending ++ [(none, m.running)],
           curState := newState }

/-- applyUnplugged: stage the new configuration (swap candidate only). -/
def applyUnplugged (m : IntfMachine) (cfg : Cfg) : IntfMachine :=
  { m with candidate := cfg, curState := State.unplugged }

/-- resetUnplugged: remove the staged configuration (swap candidate only). -/
def resetUnplugged (m : IntfMachine) (cfg : Cfg) : IntfMachine :=
  { m with candidate := cfg, curState := State.unplugged }

/-- apply (Plugged): apply the new configuration. -/
def apply (m : IntfMachine) (cfg : Cfg) : IntfMachine :=
  applyconfig m cfg

/-- unapply: present in the source but absent from the transition table. -/
def unapply (m : IntfMachine) (cfg : Cfg) : IntfMachine :=
  applyconfig m cfg

/-- reset (Plugged): remove the configuration by applying the reset tree. -/
def reset (m : IntfMachine) (cfg : Cfg) : IntfMachine :=
  applyconfig m cfg

/-- plug (Unplugged): mark plugged and apply the staged candidate. -/
def plug (m : IntfMachine) (_ : Cfg) : IntfMachine :=
  applyconfig { m with plugged := true } m.candidate

/-- plugUnapplying: mark plugged; cleanup in progress continues. -/
def plugUnapplying (m : IntfMachine) (_ : Cfg) : IntfMachine :=
  { m with plugged := true, curState := State.unapplying }

/-- unplug (Plugged): mark unplugged and clean up the existing config. -/
def unplug (m : IntfMachine) (_ : Cfg) : IntfMachine :=
  unapplyconfig { m with plugged := false } State.unapplying

/-- unplugApplying: note the interface is unplugged so cleanup can happen
once the in-flight apply completes. -/
def unplugApplying (m : IntfMachine) (_ : Cfg) : IntfMachine :=
  { m with plugged := false, curState := State.applying }

/-- unplugUnapplying: interface flip-flopped while cleaning up. -/
def unplugUnapplying (m : IntfMachine) (_ : Cfg) : IntfMachine :=
  { m with plugged := false, curState := State.unapplying }

/-- resetApplying: swap candidate while a previous application runs. -/
def resetApplying (m : IntfMachine) (cfg : Cfg) : IntfMachine :=
  { m with candidate := cfg, curState := State.applying }

/-- resetUnapplying: swap candidate while an unapply runs. -/
def resetUnapplying (m : IntfMachine) (cfg : Cfg) : IntfMachine :=
  { m with candidate := cfg, curState := State.unapplying }

/-- swapApplying: coalesce changes arriving while scripts run. -/
def swapApplying (m : IntfMachine) (cfg : Cfg) : IntfMachine :=
  { m with candidate := cfg, curState := State.applying }

/-- swapUnapplying: update the candidate during an unapply. -/
def swapUnapplying (m : IntfMachine) (cfg : Cfg) : IntfMachine :=
  { m with candidate := cfg, curState := State.unapplying }

/-- doneApplying: commit completion seen in Applying. -/
def doneApplying (m : IntfMachine) (_ : Cfg) : IntfMachine :=
  if m.killReq then unapplyconfig m State.shuttingdown
  else if !m.plugged then unapplyconfig m State.unapplying
  else if m.running ≠ m.candidate then applyconfig m m.candidate
  else { m with curState := State.plugged }

/-- doneUnapplying: commit completion seen in Unapplying. -/
def doneUnapplying (m : IntfMachine) (_ : Cfg) : IntfMachine :=
  if m.killReq then unapplyconfig m State.shuttingdown
  else if !m.plugged then { m with curState := State.unplugged }
  else applyconfig m m.candidate

/-- kill: stop the machine (Unplugged, and Done in Shuttingdown). -/
def kill (m : IntfMachine) (_ : Cfg) : IntfMachine :=
  { m with curState := State.shutdown }

/-- killPlugged: stop the machine from Plugged, clearing up the running
configuration first. -/
def killPlugged (m : IntfMachine) (_ : Cfg) : IntfMachine :=
  unapplyconfig m State.shuttingdown

/-- killApplying: latch the kill request; honored at the next Done. -/
def killApplying (m : IntfMachine) (_ : Cfg) : IntfMachine :=
  { m with killReq := true, curState := State.applying }

/-- killUnapplying: latch the kill request; honored at the next Done. -/
def killUnapplying (m : IntfMachine) (_ : Cfg) : IntfMachine :=
  { m with killReq := true, curState := State.unapplying }

end IntfMachine

/-- A transition function (intf_state_machine.go, type TransFn).  The Go
version mutates the machine and returns the next state; here the returned
machine's curState models the run loop's assignment of that state. -/
abbrev TransFn := IntfMachine → Cfg → IntfMachine

/-- The transition table built by NewIntfMachine.  Pairs absent from the
table are ignored by the run loop with a log line. -/
def transitionTable (s : State) (t : messageType) : Option TransFn :=
  match s, t with
  | State.unplugged, messageType.apply => some IntfMachine.applyUnplugged
  | State.unplugged, messageType.reset => some IntfMachine.resetUnplugged
  | State.unplugged, messageType.plug => some IntfMachine.plug
  | State.unplugged, messageType.kill => some IntfMachine.kill
  | State.plugged, messageType.apply => some IntfMachine.apply
  | State.plugged, messageType.reset => some IntfMachine.reset
  | State.plugged, messageType.unplug => some IntfMachine.unplug
  | State.plugged, messageType.kill => some IntfMachine.killPlugged
  | State.applying, messageType.apply => some IntfMachine.swapApplying
  | State.applying, messageType.reset => some IntfMachine.resetApplying
  | State.applying, messageType.unplug => some IntfMachine.unplugApplying
  | State.applying, messageType.done => some IntfMachine.doneApplying
  | State.applying, messageType.kill => some IntfMachine.killApplying
  | State.unapplying, messageType.apply => some IntfMachine.swapUnapplying
  | State.unapplying, messageType.reset => some IntfMachine.resetUnapplying
  | State.unapplying, messageType.plug => some IntfMachine.plugUnapplying
  | State.unapplying, messageType.unplug => some IntfMachine.unplugUnapplying
  | State.unapplying, messageType.done => some IntfMachine.doneUnapplying
  | State.unapplying, messageType.kill => some IntfMachine.killUnapplying
  | State.shuttingdown, messageType.done => some IntfMachine.kill
  | _, _ => none

/-- One iteration of the run loop on a dequeued message: look the transition
up in the table, ignore the message if there is none, otherwise run it. -/
def processMessage (m : IntfMachine) (msg : message) : IntfMachine :=
  match transitionTable m.curState msg.typ with
  | none => m
  | some f => f m msg.data

/-- Process one event.  A Done event is sent by the commit driver of the
oldest in-flight job after it has stored that job's candidate snapshot into
running, so the Done step performs that store and retires the job before
running the Done transition.  (The [] branch cannot arise in an execution:
a Done is only ever sent by an in-flight driver.) -/
def stepEvent (m : IntfMachine) (msg : message) : IntfMachine :=
  if msg.typ = messageType.done then
    match m.pending with
    | [] => m
    | j :: rest => processMessage { m with running := j.1, pending := rest } msg
  else
    processMessage m msg

/-- NewIntfMachine: the machine starts in Unplugged with nil candidate and
running pointers, no kill request and nothing in flight. -/
def initMachine : IntfMachine :=
  { curState := State.unplugged, candidate := none, running := none,
    plugged := false, killReq := false, pending := [] }

/-- The machine states reachable by processing events from the initial
state.  A Done event can only be delivered while a commit is in flight. -/
inductive Reachable : IntfMachine → Prop where
  | init : Reachable initMachine
  | step : ∀ (m : IntfMachine) (msg : message), Reachable m →
      (msg.typ = messageType.done → m.pending ≠ []) →
      Reachable (stepEvent m msg)

/-- States in which a commit driver is running. -/
def active (s : State) : Bool :=
  match s with
  | State.applying => true
  | State.unapplying => true
  | State.shuttingdown => true
  | _ => false

/-- The commit-in-flight invariant: exactly one driver is outstanding in
Applying, Unapplying and Shuttingdown, and none anywhere else. -/
def Inv (m : IntfMachine) : Prop :=
  (active m.curState = true → m.pending.length = 1) ∧
  (active m.curState = false → m.pending = [])

/-! ### Configuration trees and the interface manager

The manager-level claims are about which events the manager delivers and
about the session registry, so here configuration trees are modelled by
their structure (Go: the danos config data.Node rose tree), not just by a
pointer identity. -/

/-- A configuration tree node: a name and an ordered list of children
(external danos config data.New / AddChild). -/
inductive DataNode where
  | node (name : String) (children : List DataNode)

/-- The node's name. -/
def DataNode.name : DataNode → String
  | DataNode.node n _ => n

/-- The node's children, in insertion order. -/
def DataNode.children : DataNode → List DataNode
  | DataNode.node _ cs => cs

/-- Names of the node's children, in order. -/
def DataNode.childNames (n : DataNode) : List String :=
  n.children.map DataNode.name

/-- First child with the given name, if any (external data.Node Child; its
nil result is modelled as none). -/
def DataNode.child (n : DataNode) (s : String) : Option DataNode :=
  n.children.find? (fun c => c.name == s)

/-- listConfigInterfaces: the interface names under interfaces/[type] in the
tree, in tree order. -/
def listConfigInterfaces (config : DataNode) : List String :=
  match config.child ("interfaces") with
  | none => []
  | some intfTree => intfTree.children.flatMap DataNode.childNames

/-- The inner loops of findCommitRoot: scan the children of the interfaces
node for the first type holding a child with the wanted name, returning that
type's name and the interface subtree. -/
def findCommitRootScan (name : String) (types : List DataNode) :
    Option (String × DataNode) :=
  match types with
  | [] => none
  | t :: rest =>
    match t.children.find? (fun i => i.name == name) with
    | some intf => some (t.name, intf)
    | none => findCommitRootScan name rest

/-- findCommitRoot: find interfaces/[type]/[name] and build a fresh dummy
path root/interfaces/[type] with only that interface node attached. -/
def findCommitRoot (name : String) (tree : DataNode) : Option DataNode :=
  match tree.child ("interfaces") with
  | none => none
  | some intfTree =>
    match findCommitRootScan name intfTree.children with
    | none => none
    | some (tname, intf) =>
      some (DataNode.node "root"
        [DataNode.node "interfaces" [DataNode.node tname [intf]]])

/-- findCommitRoot lifted to a possibly nil tree pointer (the external
data.Node methods tolerate a nil receiver, yielding no match). -/
def findCommitRootOpt (name : String) (tree : Option DataNode) :
    Option DataNode :=
  tree.bind (findCommitRoot name)

/-- The events the manager can deliver onto a machine's queue. -/
inductive Delivery where
  | applyD (cfg : Option DataNode)
  | resetD (cfg : Option DataNode)
  | plugD

/-- The tree-level view of one machine's atomic candidate/running pointers,
as read by the manager and the dispatcher. -/
structure MachineT where
  candidate : Option DataNode
  running : Option DataNode

/-- The interface manager (the IntfManager Go struct): the last full
configuration tree seen, if any, and the map from managed interface name to
machine, modelled as an association list in registration order. -/
structure IntfManager where
  config : Option DataNode
  interfaces : List (String × MachineT)

/-- Whether a name is managed (map membership in the Go code). -/
def IntfManager.managedB (mgr : IntfManager) (n : String) : Bool :=
  (mgr.interfaces.lookup n).isSome

/-- Register: no-op when the name is already managed; otherwise create a
fresh machine (initMachine models its state), record it, deliver Apply with
the manager's current tree (possibly nil) and, when the kernel reports the
interface present (net.InterfaceByName succeeding, modelled by kernelHas),
also deliver Plug.  Returns the updated manager and the deliveries made, in
order. -/
def IntfManager.Register (mgr : IntfManager) (kernelHas : String → Bool)
    (intfName : String) : IntfManager × List (String × Delivery) :=
  if (mgr.interfaces.lookup intfName).isSome then (mgr, [])
  else
    ({ mgr with interfaces :=
        mgr.interfaces ++ [(intfName, { candidate := none, running := none })] },
      (intfName, Delivery.applyD mgr.config) ::
        (if kernelHas intfName then [(intfName, Delivery.plugD)] else []))

/-- Manager Apply: store the new full tree, deliver Apply with it to each
managed name listed in the tree (once per listed occurrence, in tree order),
then deliver Reset with it to each managed machine whose name was not
listed.  The Go reset loop ranges over a map in unspecified order; the
association-list order stands in for one such order, which is irrelevant to
the per-machine statements proved below. -/
def IntfManager.Apply (mgr : IntfManager) (config : DataNode) :
    IntfManager × List (String × Delivery) :=
  let cfgNames := listConfigInterfaces config
  let configInterfaces := cfgNames.filter mgr.managedB
  let applies := (cfgNames.filter mgr.managedB).map
      (fun n => (n, Delivery.applyD (some config)))
  let resets := (mgr.interfaces.filter
      (fun p => !(configInterfaces.contains p.1))).map
      (fun p => (p.1, Delivery.resetD (some config)))
  ({ mgr with config := some config }, applies ++ resets)

/-- The deliveries addressed to one machine, in order. -/
def deliveriesTo (n : String) (ds : List (String × Delivery)) : List Delivery :=
  (ds.filter (fun p => p.1 == n)).map Prod.snd

/-! ### Session registry, management errors and the dispatcher -/

/-- The error kinds the embedded operations produce (external mgmterror
constructors used by the sources). -/
inductive ErrTag where
  | dataMissing
  | operationFailed
deriving DecidableEq, Repr

/-- A structured management error: kind and message. -/
structure MgmtError where
  tag : ErrTag
  message : String
deriving DecidableEq, Repr

/-- A session: the candidate/running snapshot pair and the schema it is to
be interpreted against (the schema is opaque, kept as a tag). -/
structure Session where
  candidate : Option DataNode
  running : Option DataNode
  schema : Nat

/-- The session registry (the Sessions Go struct), a map from session id to
session modelled as an association list. -/
structure Sessions where
  sessions : List (String × Session)

/-- Sessions.New: fail with an operation-failed "session exists" error when
the id is taken, leaving the registry untouched; otherwise insert and return
the new session. -/
def Sessions.New (s : Sessions) (sid : String)
    (candidate running : Option DataNode) (schema : Nat) :
    Sessions × Except MgmtError Session :=
  match s.sessions.lookup sid with
  | some _ =>
    (s, Except.error { tag := ErrTag.operationFailed, message := "session exists" })
  | none =>
    let sess : Session := { candidate := candidate, running := running, schema := schema }
    ({ sessions := s.sessions ++ [(sid, sess)] }, Except.ok sess)

/-- Sessions.Delete: remove the binding for the id, if present. -/
def Sessions.Delete (s : Sessions) (sid : String) : Sessions :=
  { sessions := s.sessions.filter (fun p => !(p.1 == sid)) }

/-- Sessions.Get: the session bound to the id, if any. -/
def Sessions.Get (s : Sessions) (sid : String) : Option Session :=
  s.sessions.lookup sid

/-- The session id built by IntfMachine.newSession; the timestamp suffix
(time.Now) is passed in as an opaque string. -/
def sessionId (name timeStr : String) : String :=
  "INTF_" ++ name ++ "_" ++ timeStr

/-- IntfMachine.newSession: build the id, extract the per-interface commit
roots of the machine's current candidate and running trees, register the
session (any registration error is discarded, as in the Go code) and return
the id. -/
def machNewSession (sessions : Sessions) (schema : Nat)
    (timeStr name : String) (mt : MachineT) : Sessions × String :=
  let sid := sessionId name timeStr
  let intfCandidate := findCommitRootOpt name mt.candidate
  let intfRunning := findCommitRootOpt name mt.running
  ((Sessions.New sessions sid intfCandidate intfRunning schema).1, sid)

/-- IntfManager.newSession: empty id when the interface is unmanaged,
otherwise a fresh session over the machine's current trees. -/
def IntfManager.newSession (mgr : IntfManager) (sessions : Sessions)
    (schema : Nat) (timeStr intfName : String) : Sessions × String :=
  match mgr.interfaces.lookup intfName with
  | none => (sessions, "")
  | some mt => machNewSession sessions schema timeStr intfName mt

/-- Disp.Running: create a session for the interface; when the manager
returns an empty id (unmanaged interface) fail with a data-missing error;
otherwise serialize the session's running tree — the external union Marshal
of the running subtree under the per-connection secrets flag is modelled by
the opaque total function serialize — and delete the session before
returning.  (The session-missing branch models the Go nil dereference that
could only follow a session-id collision; it is dead for a fresh id.) -/
def DispRunning (secrets : Bool)
    (serialize : Option DataNode → Bool → String)
    (mgr : IntfManager) (sessions : Sessions) (schema : Nat)
    (timeStr intf : String) : Sessions × Except MgmtError String :=
  let res := IntfManager.newSession mgr sessions schema timeStr intf
  let sessions1 := res.1
  let sid := res.2
  if sid = "" then
    (sessions1,
      Except.error { tag := ErrTag.dataMissing,
                     message := "Interface not managed by ifmgrd" })
  else
    let out : Except MgmtError String :=
      match Sessions.Get sessions1 sid with
      | some sess => Except.ok (serialize sess.running secrets)
      | none =>
        Except.error { tag := ErrTag.operationFailed, message := "session missing" }
    (Sessions.Delete sessions1 sid, out)

/-! ### NodeGetStatus -/

/-- The node statuses of the configd rpc package used by NodeGetStatus. -/
inductive NodeStatus where
  | UNCHANGED
  | CHANGED
  | ADDED
  | DELETED
deriving DecidableEq, Repr

/-- What NodeGetStatus asks the schema about a diff node's parent. -/
structure ParentView where
  isLeaf : Bool
  isLeafList : Bool
  changed : Bool
deriving DecidableEq, Repr

/-- What NodeGetStatus asks the external diff package about an existing diff
node: its Deleted/Added/Changed answers, whether its schema node is a leaf
value, and its parent, if any. -/
structure DiffNodeView where
  deleted : Bool
  added : Bool
  changed : Bool
  isLeafValue : Bool
  parent : Option ParentView
deriving DecidableEq, Repr

/-- parentIsLeaf as computed by NodeGetStatus (false when there is no
parent). -/
def parentIsLeafOf (n : DiffNodeView) : Bool :=
  match n.parent with
  | some p => p.isLeaf
  | none => false

/-- parentIsLeafList as computed by NodeGetStatus (false when there is no
parent). -/
def parentIsLeafListOf (n : DiffNodeView) : Bool :=
  match n.parent with
  | some p => p.isLeafList
  | none => false

/-- The parent's Changed answer; only consulted by NodeGetStatus after
parentIsLeafList has held, so the parent exists there. -/
def parentChangedOf (n : DiffNodeView) : Bool :=
  match n.parent with
  | some p => p.changed
  | none => false

/-- Disp.NodeGetStatus on an existing diff node: the status switch from
dispatcher.go, whose cases are tried in source order. -/
def nodeGetStatus (n : DiffNodeView) : NodeStatus :=
  if n.deleted then NodeStatus.DELETED
  else if n.isLeafValue && parentIsLeafOf n then NodeStatus.CHANGED
  else if n.added then NodeStatus.ADDED
  else if n.changed then NodeStatus.CHANGED
  else if n.isLeafValue && parentIsLeafListOf n && parentChangedOf n then
    NodeStatus.CHANGED
  else NodeStatus.UNCHANGED

/-! ### Theorems about the state machine -/

/-- C1: For a machine in state Applying that processes a Done event: if
killReq is latched it starts commit(∅, running) and transitions to
Shuttingdown; otherwise if plugged is false it starts commit(∅, running) and
transitions to Unapplying; otherwise if candidate and running are
pointer-unequal it starts commit(candidate, running) and remains in
Applying; otherwise it transitions to Plugged with no new commit.  (The
processed Done retires the in-flight job j, whose candidate snapshot j.1 the
commit driver has stored into running; a started commit appears as the job
appended to pending.) -/
theorem done_in_applying (m : IntfMachine) (j : CommitJob)
    (rest : List CommitJob) (hs : m.curState = State.applying)
    (hp : m.pending = j :: rest) :
    (m.killReq = true →
      stepEvent m { typ := messageType.done, data := none } =
        { m with running := j.1, pending := rest ++ [(none, j.1)],
                 curState := State.shuttingdown }) ∧
    (m.killReq = false → m.plugged = false →
      stepEvent m { typ := messageType.done, data := none } =
        { m with running := j.1, pending := rest ++ [(none, j.1)],
                 curState := State.unapplying }) ∧
    (m.killReq = false → m.plugged = true → m.candidate ≠ j.1 →
      stepEvent m { typ := messageType.done, data := none } =
        { m with running := j.1, pending := rest ++ [(m.candidate, j.1)],
                 curState := State.applying }) ∧
    (m.killReq = false → m.plugged = true → m.candidate = j.1 →
      stepEvent m { typ := messageType.done, data := none } =
        { m with running := j.1, pending := rest,
                 curState := State.plugged }) := by
  cases m with
  | mk cs cand run pl kr pend =>
    simp only at hs hp
    subst hs
    subst hp
    refine ⟨?_, ?_, ?_, ?_⟩ <;> intros h1 <;>
      simp_all [stepEvent, processMessage, transitionTable,
        IntfMachine.doneApplying, IntfMachine.applyconfig,
        IntfMachine.unapplyconfig, ne_comm]

/-- Witness for done_in_applying: a concrete Applying machine whose
candidate equals the retired job's snapshot goes to Plugged without a new
commit. -/
theorem done_in_applying_witness :
    stepEvent
        { curState := State.applying, candidate := some 2, running := none,
          plugged := true, killReq := false, pending := [(some 2, none)] }
        { typ := messageType.done, data := none } =
      { curState := State.plugged, candidate := some 2, running := some 2,
        plugged := true, killReq := false, pending := [] } := by
  have h := done_in_applying
    { curState := State.applying, candidate := some 2, running := none,
      plugged := true, killReq := false, pending := [(some 2, none)] }
    (some 2, none) [] rfl rfl
  simpa using h.2.2.2 rfl rfl rfl

/-- C2 counterexample: a machine driven from the initial state to Plugged
(Plug, then Done) that then receives Kill does start commit(∅, running) and
move to Shuttingdown, but its killReq flag is NOT latched: killPlugged never
sets it.  The claim asserts killReq is latched on this transition. -/
theorem kill_plugged_leaves_killreq_unlatched :
    (stepEvent
        (stepEvent (stepEvent initMachine { typ := messageType.plug, data := none })
          { typ := messageType.done, data := none })
        { typ := messageType.kill, data := none }).killReq = false ∧
    (stepEvent
        (stepEvent (stepEvent initMachine { typ := messageType.plug, data := none })
          { typ := messageType.done, data := none })
        { typ := messageType.kill, data := none }).curState = State.shuttingdown := by
  decide

/-- C2 amended: when a machine in state Plugged receives a Kill event, it
starts commit(∅, running) and transitions directly to Shuttingdown; killReq
is left unchanged (the Shuttingdown state only reacts to Done, so no latch
is needed). -/
theorem kill_in_plugged (m : IntfMachine) (d : Cfg)
    (hs : m.curState = State.plugged) :
    stepEvent m { typ := messageType.kill, data := d } =
      { m with pending := m.pending ++ [(none, m.running)],
               curState := State.shuttingdown } := by
  cases m with
  | mk cs cand run pl kr pend =>
    simp only at hs
    subst hs
    simp [stepEvent, processMessage, transitionTable,
      IntfMachine.killPlugged, IntfMachine.unapplyconfig]

/-- Witness for kill_in_plugged at a concrete Plugged machine. -/
theorem kill_in_plugged_witness :
    stepEvent
        { curState := State.plugged, candidate := some 1, running := some 1,
          plugged := true, killReq := false, pending := [] }
        { typ := messageType.kill, data := none } =
      { curState := State.shuttingdown, candidate := some 1, running := some 1,
        plugged := true, killReq := false, pending := [(none, some 1)] } := by
  simpa using kill_in_plugged
    { curState := State.plugged, candidate := some 1, running := some 1,
      plugged := true, killReq := false, pending := [] } none rfl

/-- C4: in every execution, the running pointer's value is written only from
inside a commit completion (here: the Done step, which performs the commit
driver's store), and the candidate pointer's value changes only when an
Apply or Reset event is processed; every other event leaves the candidate
value unchanged.  Stated for every machine state and event, reachable or
not. -/
theorem candidate_running_write_points (m : IntfMachine) (msg : message) :
    (msg.typ ≠ messageType.apply → msg.typ ≠ messageType.reset →
      (stepEvent m msg).candidate = m.candidate) ∧
    (msg.typ ≠ messageType.done → (stepEvent m msg).running = m.running) := by
  cases m with
  | mk cs cand run pl kr pend =>
    rcases msg with ⟨typ, data⟩
    constructor <;> intro h1 <;>
      cases typ <;> cases cs <;>
        simp_all [stepEvent, processMessage, transitionTable,
          IntfMachine.applyUnplugged, IntfMachine.resetUnplugged,
          IntfMachine.apply, IntfMachine.reset, IntfMachine.plug,
          IntfMachine.plugUnapplying, IntfMachine.unplug,
          IntfMachine.unplugApplying, IntfMachine.unplugUnapplying,
          IntfMachine.resetApplying, IntfMachine.resetUnapplying,
          IntfMachine.swapApplying, IntfMachine.swapUnapplying,
          IntfMachine.doneApplying, IntfMachine.doneUnapplying,
          IntfMachine.kill, IntfMachine.killPlugged,
          IntfMachine.killApplying, IntfMachine.killUnapplying,
          IntfMachine.applyconfig, IntfMachine.unapplyconfig] <;>
        rcases pend with _ | ⟨j, rest⟩ <;>
          simp_all [IntfMachine.doneApplying, IntfMachine.doneUnapplying,
            IntfMachine.applyconfig, IntfMachine.unapplyconfig,
            IntfMachine.kill] <;>
          split <;> simp_all <;> split <;> simp_all <;> split <;> simp_all

/-- Witness for candidate_running_write_points: a Plug event on a concrete
machine changes neither the candidate nor the running value. -/
theorem candidate_running_write_points_witness :
    (stepEvent
        { curState := State.unplugged, candidate := some 3, running := none,
          plugged := false, killReq := false, pending := [] }
        { typ := messageType.plug, data := none }).candidate = some 3 ∧
    (stepEvent
        { curState := State.unplugged, candidate := some 3, running := none,
          plugged := false, killReq := false, pending := [] }
        { typ := messageType.plug, data := none }).running = none := by
  have h := candidate_running_write_points
    { curState := State.unplugged, candidate := some 3, running := none,
      plugged := false, killReq := false, pending := [] }
    { typ := messageType.plug, data := none }
  exact ⟨h.1 (by decide) (by decide), h.2 (by decide)⟩

/-- One step preserves the commit-in-flight invariant. -/
theorem inv_step (m : IntfMachine) (msg : message) (h : Inv m)
    (hd : msg.typ = messageType.done → m.pending ≠ []) :
    Inv (stepEvent m msg) := by
  obtain ⟨h1, h2⟩ := h
  cases m with
  | mk cs cand run pl kr pend =>
  rcases msg with ⟨typ, data⟩
  cases typ <;> cases cs <;>
    rcases pend with _ | ⟨j, rest⟩ <;>
      simp_all [stepEvent, processMessage, transitionTable, Inv, active,
        IntfMachine.applyUnplugged, IntfMachine.resetUnplugged,
        IntfMachine.apply, IntfMachine.reset, IntfMachine.plug,
        IntfMachine.plugUnapplying, IntfMachine.unplug,
        IntfMachine.unplugApplying, IntfMachine.unplugUnapplying,
        IntfMachine.resetApplying, IntfMachine.resetUnapplying,
        IntfMachine.swapApplying, IntfMachine.swapUnapplying,
        IntfMachine.doneApplying, IntfMachine.doneUnapplying,
        IntfMachine.kill, IntfMachine.killPlugged,
        IntfMachine.killApplying, IntfMachine.killUnapplying,
        IntfMachine.applyconfig, IntfMachine.unapplyconfig] <;>
      (repeat' split) <;> simp_all

/-- Every reachable machine satisfies the commit-in-flight invariant. -/
theorem reachable_inv (m : IntfMachine) (h : Reachable m) : Inv m := by
  induction h with
  | init =>
    exact ⟨by simp [initMachine, active], by simp [initMachine]⟩
  | step m msg hr hdone ih => exact inv_step m msg ih hdone

/-- C3: for every reachable machine, at most one commit job is outstanding;
while the machine is in Applying or Unapplying, processing any event other
than Done submits no new commit job, and processing an Apply or Reset event
only swaps the candidate pointer. -/
theorem at_most_one_commit_in_flight (m : IntfMachine) (h : Reachable m) :
    m.pending.length ≤ 1 ∧
    ((m.curState = State.applying ∨ m.curState = State.unapplying) →
      (∀ msg : message, msg.typ ≠ messageType.done →
        (stepEvent m msg).pending = m.pending) ∧
      (∀ cfg : Cfg,
        stepEvent m { typ := messageType.apply, data := cfg } =
          { m with candidate := cfg } ∧
        stepEvent m { typ := messageType.reset, data := cfg } =
          { m with candidate := cfg })) := by
  obtain ⟨h1, h2⟩ := reachable_inv m h
  constructor
  · by_cases ha : active m.curState = true
    · rw [h1 ha]
    · rw [h2 (by simpa using ha)]
      decide
  · intro hS
    constructor
    · intro msg hmsg
      rcases msg with ⟨typ, data⟩
      cases m with
      | mk cs cand run pl kr pend =>
      rcases hS with hS | hS <;> (simp only at hS; subst hS) <;> cases typ <;>
        simp_all [stepEvent, processMessage, transitionTable,
          IntfMachine.swapApplying, IntfMachine.resetApplying,
          IntfMachine.unplugApplying, IntfMachine.killApplying,
          IntfMachine.swapUnapplying, IntfMachine.resetUnapplying,
          IntfMachine.plugUnapplying, IntfMachine.unplugUnapplying,
          IntfMachine.killUnapplying]
    · intro cfg
      cases m with
      | mk cs cand run pl kr pend =>
      rcases hS with hS | hS <;> (simp only at hS; subst hS) <;>
        constructor <;>
          simp [stepEvent, processMessage, transitionTable,
            IntfMachine.swapApplying, IntfMachine.resetApplying,
            IntfMachine.swapUnapplying, IntfMachine.resetUnapplying]

/-- Witness for at_most_one_commit_in_flight: after Plug from the initial
state the machine is in Applying with one job in flight, and a Kill event
there submits nothing new. -/
theorem at_most_one_commit_in_flight_witness :
    (stepEvent initMachine { typ := messageType.plug, data := none }).pending.length ≤ 1 ∧
    (stepEvent (stepEvent initMachine { typ := messageType.plug, data := none })
        { typ := messageType.kill, data := none }).pending =
      (stepEvent initMachine { typ := messageType.plug, data := none }).pending := by
  have hr : Reachable (stepEvent initMachine { typ := messageType.plug, data := none }) :=
    Reachable.step initMachine { typ := messageType.plug, data := none }
      Reachable.init (by decide)
  have h := at_most_one_commit_in_flight _ hr
  exact ⟨h.1, (h.2 (Or.inl (by decide))).1
    { typ := messageType.kill, data := none } (by decide)⟩

/-- C10: once a reachable machine is in Shutdown, processing any further
event (Apply, Reset, Plug, Unplug, Kill or Done) leaves the machine — its
candidate, running, state and in-flight jobs — unchanged: the machine never
processes another event after Shutdown.  (In the Go code the closed done
channel additionally makes send return to the caller immediately.) -/
theorem no_event_processing_after_shutdown (m : IntfMachine) (h : Reachable m)
    (hs : m.curState = State.shutdown) (msg : message) :
    stepEvent m msg = m := by
  have hp : m.pending = [] := (reachable_inv m h).2 (by rw [hs]; rfl)
  rcases msg with ⟨typ, data⟩
  cases typ <;>
    simp [stepEvent, processMessage, transitionTable, hs, hp]

/-- Witness for no_event_processing_after_shutdown: Kill from the initial
state reaches Shutdown, and an Apply delivered there changes nothing. -/
theorem no_event_processing_after_shutdown_witness :
    stepEvent (stepEvent initMachine { typ := messageType.kill, data := none })
        { typ := messageType.apply, data := some 3 } =
      stepEvent initMachine { typ := messageType.kill, data := none } := by
  have hr : Reachable (stepEvent initMachine { typ := messageType.kill, data := none }) :=
    Reachable.step initMachine { typ := messageType.kill, data := none }
      Reachable.init (by decide)
  exact no_event_processing_after_shutdown _ hr (by decide)
    { typ := messageType.apply, data := some 3 }

/-! ### Theorems about the interface manager -/

theorem deliveriesTo_cons (n x : String) (d : Delivery)
    (rest : List (String × Delivery)) :
    deliveriesTo n ((x, d) :: rest) =
      if x == n then d :: deliveriesTo n rest else deliveriesTo n rest := by
  simp only [deliveriesTo, List.filter_cons]
  split <;> simp

theorem deliveriesTo_append (n : String) (l1 l2 : List (String × Delivery)) :
    deliveriesTo n (l1 ++ l2) = deliveriesTo n l1 ++ deliveriesTo n l2 := by
  simp [deliveriesTo, List.filter_append]

/-- Deliveries addressed to n produced by delivering d to every name of a
duplicate-free list that passes a filter: one delivery when n passes and is
listed, none otherwise. -/
theorem deliveriesTo_filter_map (names : List String) (p : String → Bool)
    (d : Delivery) (n : String) (h : names.Nodup) :
    deliveriesTo n ((names.filter p).map (fun x => (x, d))) =
      if p n = true ∧ n ∈ names then [d] else [] := by
  induction names with
  | nil => simp [deliveriesTo]
  | cons a t ih =>
    rw [List.nodup_cons] at h
    have ht := ih h.2
    rw [List.filter_cons]
    by_cases he : a = n
    · subst he
      by_cases hp : p a
      · rw [if_pos hp, List.map_cons, deliveriesTo_cons, ht]
        simp [hp, h.1]
      · rw [if_neg hp, ht]
        simp [hp]
    · have hne : ¬n = a := fun hx => he hx.symm
      by_cases hp : p a
      · rw [if_pos hp, List.map_cons, deliveriesTo_cons, ht]
        have hba : (a == n) = false := by simpa using he
        simp [hba, hne]
      · rw [if_neg hp, ht]
        simp [hne]

/-- Same statement over an association list with duplicate-free keys, the
delivery being addressed to each surviving entry's key. -/
theorem deliveriesTo_assoc_filter (l : List (String × MachineT))
    (q : String → Bool) (d : Delivery) (n : String)
    (h : (l.map Prod.fst).Nodup) :
    deliveriesTo n ((l.filter (fun p => q p.1)).map (fun p => (p.1, d))) =
      if q n = true ∧ n ∈ l.map Prod.fst then [d] else [] := by
  induction l with
  | nil => simp [deliveriesTo]
  | cons a t ih =>
    rcases a with ⟨k, v⟩
    rw [List.map_cons, List.nodup_cons] at h
    have ht := ih h.2
    rw [List.filter_cons]
    by_cases he : k = n
    · subst he
      by_cases hq : q k
      · simp only [hq, if_pos]
        rw [List.map_cons, deliveriesTo_cons, ht]
        simp [hq, h.1]
      · simp only [hq, Bool.false_eq_true, if_neg, not_false_eq_true]
        rw [ht]
        simp [hq]
    · have hne : ¬n = k := fun hx => he hx.symm
      have hiff : (n ∈ k :: List.map Prod.fst t) ↔ n ∈ List.map Prod.fst t := by
        constructor
        · intro hx
          rcases List.mem_cons.mp hx with hx | hx
          · exact absurd hx hne
          · exact hx
        · exact fun hx => List.mem_cons.mpr (Or.inr hx)
      by_cases hq : q k
      · simp only [hq, if_pos]
        rw [List.map_cons, deliveriesTo_cons, ht]
        have hba : (k == n) = false := by simpa using he
        simp only [hba, Bool.false_eq_true, if_false, List.map_cons, hiff]
      · simp only [hq, Bool.false_eq_true, if_neg, not_false_eq_true]
        rw [ht]
        simp only [List.map_cons, hiff]

/-- A lookup succeeds exactly on the listed keys. -/
theorem lookup_isSome_iff {β : Type} (l : List (String × β)) (n : String) :
    (l.lookup n).isSome = true ↔ n ∈ l.map Prod.fst := by
  induction l with
  | nil => simp [List.lookup]
  | cons a t ih =>
    rcases a with ⟨k, v⟩
    by_cases he : n = k
    · subst he
      simp [List.lookup]
    · have hba : (n == k) = false := by simpa using he
      simp [List.lookup, hba, ih, he]

/-- A configuration tree in which the interface name dp0 is listed under two
interface types. -/
def dupTree : DataNode :=
  DataNode.node "root"
    [DataNode.node "interfaces"
      [DataNode.node "dataplane" [DataNode.node "dp0" []],
       DataNode.node "bonding" [DataNode.node "dp0" []]]]

/-- C6 counterexample: when the same interface name appears under two
interface types in the tree, a manager managing that name delivers two Apply
events to its machine, not exactly one event. -/
theorem apply_duplicate_name_two_events :
    (deliveriesTo "dp0"
        (IntfManager.Apply
          { config := none,
            interfaces := [("dp0", { candidate := none, running := none })] }
          dupTree).2).length = 2 ∧
    ({ config := none,
       interfaces := [("dp0", { candidate := none, running := none })] } :
        IntfManager).managedB "dp0" = true := by
  constructor <;> rfl

/-- C6 amended: Manager Apply(full_tree) stores full_tree as the manager's
reference; provided each interface name appears at most once under
interfaces/[type] in the tree (otherwise a managed name receives one Apply
per occurrence), every managed machine receives exactly one event — Apply
with the full tree if its name appears under interfaces/[type], Reset with
the full tree otherwise — and names that are not managed receive nothing. -/
theorem manager_apply_event_per_machine (mgr : IntfManager)
    (config : DataNode) (n : String)
    (hkeys : (mgr.interfaces.map Prod.fst).Nodup)
    (hnames : (listConfigInterfaces config).Nodup) :
    (IntfManager.Apply mgr config).1.config = some config ∧
    (mgr.managedB n = true → n ∈ listConfigInterfaces config →
      deliveriesTo n (IntfManager.Apply mgr config).2 =
        [Delivery.applyD (some config)]) ∧
    (mgr.managedB n = true → n ∉ listConfigInterfaces config →
      deliveriesTo n (IntfManager.Apply mgr config).2 =
        [Delivery.resetD (some config)]) ∧
    (mgr.managedB n = false →
      deliveriesTo n (IntfManager.Apply mgr config).2 = []) := by
  have hmem : mgr.managedB n = true ↔ n ∈ mgr.interfaces.map Prod.fst := by
    unfold IntfManager.managedB
    exact lookup_isSome_iff mgr.interfaces n
  have happ := deliveriesTo_filter_map (listConfigInterfaces config)
    mgr.managedB (Delivery.applyD (some config)) n hnames
  have hres := deliveriesTo_assoc_filter mgr.interfaces
    (fun key => !(((listConfigInterfaces config).filter mgr.managedB).contains key))
    (Delivery.resetD (some config)) n hkeys
  refine ⟨rfl, ?_, ?_, ?_⟩
  · intro hman hin
    have hqn : (!(((listConfigInterfaces config).filter mgr.managedB).contains n))
        = false := by
      have hx : n ∈ (listConfigInterfaces config).filter mgr.managedB :=
        List.mem_filter.mpr ⟨hin, hman⟩
      simp [hx]
    have hcond : ¬((!(((listConfigInterfaces config).filter
        mgr.managedB).contains n)) = true ∧
          n ∈ mgr.interfaces.map Prod.fst) := by
      intro hc
      rw [hqn] at hc
      exact Bool.false_eq_true.mp hc.1
    simp only [IntfManager.Apply]
    rw [deliveriesTo_append, happ, hres, if_pos ⟨hman, hin⟩, if_neg hcond]
    simp
  · intro hman hout
    have hqn : (!(((listConfigInterfaces config).filter mgr.managedB).contains n))
        = true := by
      have hx : n ∉ (listConfigInterfaces config).filter mgr.managedB :=
        fun hx => hout (List.mem_filter.mp hx).1
      simp [hx]
    simp only [IntfManager.Apply]
    rw [deliveriesTo_append, happ, hres,
      if_neg (fun hc => hout hc.2), if_pos ⟨hqn, hmem.mp hman⟩]
    simp
  · intro hman
    have hnk : n ∉ mgr.interfaces.map Prod.fst := by
      intro hx
      rw [hmem.mpr hx] at hman
      exact Bool.true_eq_false.mp hman
    simp only [IntfManager.Apply]
    rw [deliveriesTo_append, happ, hres,
      if_neg (fun hc => by rw [hman] at hc; exact Bool.false_eq_true.mp hc.1),
      if_neg (fun hc => hnk hc.2)]
    simp

/-- A configuration tree listing dp0 and dp1 once each under one type. -/
def plainTree : DataNode :=
  DataNode.node "root"
    [DataNode.node "interfaces"
      [DataNode.node "dataplane" [DataNode.node "dp0" [], DataNode.node "dp1" []]]]

/-- Witness for manager_apply_event_per_machine: a manager managing dp0 and
dp2 handed plainTree sends dp0 exactly one Apply. -/
theorem manager_apply_event_per_machine_witness :
    deliveriesTo "dp0"
        (IntfManager.Apply
          { config := none,
            interfaces := [("dp0", { candidate := none, running := none }),
                           ("dp2", { candidate := none, running := none })] }
          plainTree).2 =
      [Delivery.applyD (some plainTree)] := by
  have h := manager_apply_event_per_machine
    { config := none,
      interfaces := [("dp0", { candidate := none, running := none }),
                     ("dp2", { candidate := none, running := none })] }
    plainTree "dp0" (by decide) (by decide)
  exact h.2.1 rfl (by decide)

/-- C5 counterexample: registering a first interface on a fresh manager that
has never been handed a configuration tree (config is nil, so no full tree
is known) still delivers an Apply event — carrying the nil tree — to the new
machine.  The claim asserts Apply is delivered only if a full tree is
known. -/
theorem register_applies_without_known_tree :
    (IntfManager.Register { config := none, interfaces := [] }
        (fun _ => false) ("dp0")).2 =
      [("dp0", Delivery.applyD none)] ∧
    ({ config := none, interfaces := [] } : IntfManager).config = none := by
  constructor <;> rfl

/-- C5 amended: Register(name) is a no-op when name is already in the
manager's map; otherwise it creates a machine in Unplugged with empty
candidate and running (initMachine), records it, always delivers Apply
carrying the manager's current tree (nil when no tree has been seen), and
additionally delivers Plug if the kernel reports the interface present at
registration time. -/
theorem register_behavior (mgr : IntfManager) (kernelHas : String → Bool)
    (name : String) :
    ((mgr.interfaces.lookup name).isSome →
      IntfManager.Register mgr kernelHas name = (mgr, [])) ∧
    ((mgr.interfaces.lookup name) = none →
      IntfManager.Register mgr kernelHas name =
        ({ mgr with interfaces :=
            mgr.interfaces ++ [(name, { candidate := none, running := none })] },
          (name, Delivery.applyD mgr.config) ::
            (if kernelHas name then [(name, Delivery.plugD)] else []))) ∧
    initMachine =
      { curState := State.unplugged, candidate := none, running := none,
        plugged := false, killReq := false, pending := [] } := by
  refine ⟨?_, ?_, rfl⟩
  · intro hsome
    simp [IntfManager.Register, hsome]
  · intro hnone
    simp [IntfManager.Register, hnone]

/-- Witness for register_behavior: registering a new name on an empty
manager with the kernel reporting it present delivers Apply then Plug. -/
theorem register_behavior_witness :
    IntfManager.Register { config := none, interfaces := [] }
        (fun _ => true) ("dp1") =
      ({ config := none,
         interfaces := [("dp1", { candidate := none, running := none })] },
        [("dp1", Delivery.applyD none), ("dp1", Delivery.plugD)]) := by
  have h := register_behavior { config := none, interfaces := [] }
    (fun _ => true) ("dp1")
  simpa using h.2.1 rfl

/-! ### Theorems about the session registry and the dispatcher -/

/-- C9: Sessions.New returns an error exactly when sid is already present;
in the error case the registry is unchanged, and otherwise it inserts a
session holding exactly the given candidate, running and schema under
sid. -/
theorem sessions_new_contract (s : Sessions) (sid : String)
    (candidate running : Option DataNode) (schema : Nat) :
    ((Sessions.New s sid candidate running schema).2.isOk = false ↔
      (s.sessions.lookup sid).isSome = true) ∧
    ((s.sessions.lookup sid).isSome = true →
      Sessions.New s sid candidate running schema =
        (s, Except.error
          { tag := ErrTag.operationFailed, message := "session exists" })) ∧
    (s.sessions.lookup sid = none →
      Sessions.New s sid candidate running schema =
        ({ sessions := s.sessions ++
            [(sid, { candidate := candidate, running := running, schema := schema })] },
          Except.ok
            { candidate := candidate, running := running, schema := schema })) := by
  refine ⟨?_, ?_, ?_⟩
  · rcases hl : s.sessions.lookup sid with _ | sess <;>
      simp [Sessions.New, hl, Except.isOk, Except.toBool]
  · intro hsome
    rcases hl : s.sessions.lookup sid with _ | sess
    · rw [hl] at hsome
      exact absurd hsome (by simp)
    · simp [Sessions.New, hl]
  · intro hnone
    simp [Sessions.New, hnone]

/-- Witness for sessions_new_contract: inserting into an empty registry
succeeds and stores exactly the given triple. -/
theorem sessions_new_contract_witness :
    Sessions.New { sessions := [] } "s1" none none 7 =
      ({ sessions := [("s1", { candidate := none, running := none, schema := 7 })] },
        Except.ok { candidate := none, running := none, schema := 7 }) := by
  exact (sessions_new_contract { sessions := [] } "s1" none none 7).2.2 rfl

/-- A key that fails to look up is bound after appending it. -/
theorem lookup_append_self {β : Type} (l : List (String × β)) (sid : String)
    (x : β) (h : l.lookup sid = none) :
    (l ++ [(sid, x)]).lookup sid = some x := by
  induction l with
  | nil => simp [List.lookup]
  | cons a t ih =>
    rcases a with ⟨k, v⟩
    rw [List.cons_append]
    by_cases hbe : sid = k
    · subst hbe
      simp [List.lookup] at h
    · have hb : (sid == k) = false := by simpa using hbe
      simp only [List.lookup, hb] at h ⊢
      exact ih h

/-- Filtering a key out of a registry that does not bind it changes
nothing. -/
theorem filter_ne_of_lookup_none {β : Type} (l : List (String × β))
    (sid : String) (h : l.lookup sid = none) :
    l.filter (fun p => !(p.1 == sid)) = l := by
  induction l with
  | nil => rfl
  | cons a t ih =>
    rcases a with ⟨k, v⟩
    by_cases hbe : sid = k
    · subst hbe
      simp [List.lookup] at h
    · have hb : (sid == k) = false := by simpa using hbe
      have hb2 : (k == sid) = false := by
        simp
        exact fun hx => hbe hx.symm
      simp only [List.lookup, hb] at h
      rw [List.filter_cons]
      simp [hb2, ih h]

/-- The generated session ids are never the empty sentinel string. -/
theorem sessionId_ne_empty (name timeStr : String) :
    sessionId name timeStr ≠ "" := by
  intro h
  have h2 := congrArg String.length h
  simp only [sessionId] at h2
  rw [String.length_append, String.length_append, String.length_append] at h2
  have h5 : ("INTF_").length = 5 := by decide
  rw [h5] at h2
  simp at h2

/-- C7: Running(name) returns an error if and only if name is not a managed
interface, and that error has kind DataMissing and message "Interface not
managed by ifmgrd"; when name is managed it creates a session whose trees
are the commit roots of the machine's current candidate and running trees,
returns the serialization of the session's running subtree, and deletes the
session before returning, leaving the registry as it was.  (The session id
built from the given timestamp must be fresh; ids embed a wall-clock
timestamp to that end.) -/
theorem running_contract (secrets : Bool)
    (serialize : Option DataNode → Bool → String) (mgr : IntfManager)
    (sessions : Sessions) (schema : Nat) (timeStr intf : String)
    (hfresh : sessions.sessions.lookup (sessionId intf timeStr) = none) :
    ((DispRunning secrets serialize mgr sessions schema timeStr intf).2.isOk
        = false ↔ mgr.interfaces.lookup intf = none) ∧
    (mgr.interfaces.lookup intf = none →
      DispRunning secrets serialize mgr sessions schema timeStr intf =
        (sessions, Except.error
          { tag := ErrTag.dataMissing,
            message := "Interface not managed by ifmgrd" })) ∧
    (∀ mt, mgr.interfaces.lookup intf = some mt →
      DispRunning secrets serialize mgr sessions schema timeStr intf =
        (sessions, Except.ok
          (serialize (findCommitRootOpt intf mt.running) secrets))) := by
  rcases hl : mgr.interfaces.lookup intf with _ | mt
  · have hrun : DispRunning secrets serialize mgr sessions schema timeStr intf =
        (sessions, Except.error
          { tag := ErrTag.dataMissing,
            message := "Interface not managed by ifmgrd" }) := by
      simp [DispRunning, IntfManager.newSession, hl]
    refine ⟨?_, fun _ => hrun, fun mt hmt => ?_⟩
    · rw [hrun]
      simp [Except.isOk, Except.toBool]
    · exact Option.noConfusion hmt
  · have hne := sessionId_ne_empty intf timeStr
    have hrun : DispRunning secrets serialize mgr sessions schema timeStr intf =
        (sessions, Except.ok
          (serialize (findCommitRootOpt intf mt.running) secrets)) := by
      simp only [DispRunning, IntfManager.newSession, hl, machNewSession,
        Sessions.New, hfresh]
      rw [if_neg hne]
      have hget : Sessions.Get
          { sessions := sessions.sessions ++
              [(sessionId intf timeStr,
                { candidate := findCommitRootOpt intf mt.candidate,
                  running := findCommitRootOpt intf mt.running,
                  schema := schema })] }
          (sessionId intf timeStr) =
          some { candidate := findCommitRootOpt intf mt.candidate,
                 running := findCommitRootOpt intf mt.running,
                 schema := schema } :=
        lookup_append_self sessions.sessions (sessionId intf timeStr) _ hfresh
      rw [hget]
      have hdel : Sessions.Delete
          { sessions := sessions.sessions ++
              [(sessionId intf timeStr,
                { candidate := findCommitRootOpt intf mt.candidate,
                  running := findCommitRootOpt intf mt.running,
                  schema := schema })] }
          (sessionId intf timeStr) = sessions := by
        simp only [Sessions.Delete, List.filter_append]
        rw [filter_ne_of_lookup_none sessions.sessions _ hfresh]
        simp
      rw [hdel]
    refine ⟨?_, fun hmt => Option.noConfusion hmt, fun mt2 hmt => ?_⟩
    · rw [hrun]
      simp [Except.isOk, Except.toBool]
    · cases hmt
      exact hrun

/-- Witness for running_contract: a managed dp0 with a nil running tree
yields the serializer's output on the empty commit root, restoring the empty
session registry. -/
theorem running_contract_witness :
    DispRunning false (fun _ _ => "serialized")
        { config := none,
          interfaces := [("dp0", { candidate := none, running := none })] }
        { sessions := [] } 0 "t0" "dp0" =
      ({ sessions := [] }, Except.ok "serialized") := by
  have h := running_contract false (fun _ _ => "serialized")
    { config := none,
      interfaces := [("dp0", { candidate := none, running := none })] }
    { sessions := [] } 0 "t0" "dp0" rfl
  exact h.2.2 { candidate := none, running := none } rfl

/-- C8: NodeGetStatus resolves the status of an existing diff node by
exactly this priority order: Deleted yields DELETED; else a leaf value whose
parent is a leaf yields CHANGED; else Added yields ADDED; else Changed
yields CHANGED; else a leaf value whose parent is a leaf-list with that
parent Changed yields CHANGED; else UNCHANGED. -/
theorem node_get_status_priority (n : DiffNodeView) :
    (n.deleted = true → nodeGetStatus n = NodeStatus.DELETED) ∧
    (n.deleted = false → (n.isLeafValue && parentIsLeafOf n) = true →
      nodeGetStatus n = NodeStatus.CHANGED) ∧
    (n.deleted = false → (n.isLeafValue && parentIsLeafOf n) = false →
      n.added = true → nodeGetStatus n = NodeStatus.ADDED) ∧
    (n.deleted = false → (n.isLeafValue && parentIsLeafOf n) = false →
      n.added = false → n.changed = true →
      nodeGetStatus n = NodeStatus.CHANGED) ∧
    (n.deleted = false → (n.isLeafValue && parentIsLeafOf n) = false →
      n.added = false → n.changed = false →
      (n.isLeafValue && parentIsLeafListOf n && parentChangedOf n) = true →
      nodeGetStatus n = NodeStatus.CHANGED) ∧
    (n.deleted = false → (n.isLeafValue && parentIsLeafOf n) = false →
      n.added = false → n.changed = false →
      (n.isLeafValue && parentIsLeafListOf n && parentChangedOf n) = false →
      nodeGetStatus n = NodeStatus.UNCHANGED) := by
  refine ⟨?_, ?_, ?_, ?_, ?_, ?_⟩ <;> intros <;>
    simp_all [nodeGetStatus] <;> (repeat' split) <;> simp_all

/-- Witness for node_get_status_priority: an added non-leaf node that the
diff does not mark Deleted is reported ADDED. -/
theorem node_get_status_priority_witness :
    nodeGetStatus
        { deleted := false, added := true, changed := false,
          isLeafValue := false, parent := none } = NodeStatus.ADDED := by
  exact (node_get_status_priority
    { deleted := false, added := true, changed := false,
      isLeafValue := false, parent := none }).2.2.1 rfl (by decide) rfl

end Ifmgrd
